import Mathlib

/- Formal model of the patch store and the incremental Bugzilla patch
   crawler. The Lean definitions below are shallow embeddings of the
   Python sources patchstore.py and bugzillapatchcrawler.py: the SQLite
   table is modelled as a list of rows in insertion order, and the wall
   clock, the tracker connection and the attachment payloads are explicit
   parameters. -/

namespace Pase

/- ASCII lowercasing of one character, as applied by the SQLite LIKE
   operator and by the mimetypes extension lookup. -/
def lowerChar (c : Char) : Char :=
  if 65 ≤ c.toNat ∧ c.toNat ≤ 90 then Char.ofNat (c.toNat + 32) else c

def lowerStr (s : List Char) : List Char := s.map lowerChar

/- Base64 alphabet as byte values (RFC 4648), as used by base64.b64encode:
   A-Z, a-z, 0-9, plus, slash. -/
def b64alphabet : List Nat :=
  (List.range 26).map (fun i => 65 + i) ++
  (List.range 26).map (fun i => 97 + i) ++
  (List.range 10).map (fun i => 48 + i) ++ [43, 47]

def sextet (n : Nat) : Nat := b64alphabet.getD n 0

def unsextet (b : Nat) : Nat := b64alphabet.indexOf b

/- base64.b64encode on a list of byte values; 61 is the pad byte. -/
def b64encode : List Nat → List Nat
  | b0 :: b1 :: b2 :: rest =>
      sextet (b0 / 4) :: sextet (b0 % 4 * 16 + b1 / 16) ::
      sextet (b1 % 16 * 4 + b2 / 64) :: sextet (b2 % 64) :: b64encode rest
  | [b0, b1] => [sextet (b0 / 4), sextet (b0 % 4 * 16 + b1 / 16), sextet (b1 % 16 * 4), 61]
  | [b0] => [sextet (b0 / 4), sextet (b0 % 4 * 16), 61, 61]
  | [] => []

/- base64.b64decode, total on the image of b64encode; on byte lists that
   are not well formed base64 the Python function raises, here the
   malformed tail decodes to the empty list. -/
def b64decode : List Nat → List Nat
  | c0 :: c1 :: c2 :: c3 :: rest =>
      let a := unsextet c0
      let b := unsextet c1
      if c2 = 61 then [a * 4 + b / 16]
      else
        let c := unsextet c2
        if c3 = 61 then [a * 4 + b / 16, b % 16 * 16 + c / 4]
        else (a * 4 + b / 16) :: (b % 16 * 16 + c / 4) ::
             (c % 4 * 64 + unsextet c3) :: b64decode rest
  | _ => []

/- SHA-256 (FIPS 180-4), the hash behind hashlib.sha256. Words are Nat
   values reduced modulo 2 to the 32. -/
def m32 (x : Nat) : Nat := x % 4294967296

def rotr (n x : Nat) : Nat := m32 ((x >>> n) ||| (x <<< (32 - n)))

def shaK : List Nat :=
  [1116352408, 1899447441, 3049323471, 3921009573,
   961987163, 1508970993, 2453635748, 2870763221,
   3624381080, 310598401, 607225278, 1426881987,
   1925078388, 2162078206, 2614888103, 3248222580,
   3835390401, 4022224774, 264347078, 604807628,
   770255983, 1249150122, 1555081692, 1996064986,
   2554220882, 2821834349, 2952996808, 3210313671,
   3336571891, 3584528711, 113926993, 338241895,
   666307205, 773529912, 1294757372, 1396182291,
   1695183700, 1986661051, 2177026350, 2456956037,
   2730485921, 2820302411, 3259730800, 3345764771,
   3516065817, 3600352804, 4094571909, 275423344,
   430227734, 506948616, 659060556, 883997877,
   958139571, 1322822218, 1537002063, 1747873779,
   1955562222, 2024104815, 2227730452, 2361852424,
   2428436474, 2756734187, 3204031479, 3329325298]

def shaH0 : List Nat :=
  [1779033703, 3144134277, 1013904242, 2773480762,
   1359893119, 2600822924, 528734635, 1541459225]

/- Big-endian byte expansion of n on k bytes. -/
def bytesBE : Nat → Nat → List Nat
  | 0, _ => []
  | k + 1, n => bytesBE k (n / 256) ++ [n % 256]

def sha256pad (msg : List Nat) : List Nat :=
  let l := msg.length
  let zeros := (64 - (l + 9) % 64) % 64
  msg ++ 128 :: List.replicate zeros 0 ++ bytesBE 8 (8 * l)

def toWords : List Nat → List Nat
  | b0 :: b1 :: b2 :: b3 :: rest =>
      (((b0 * 256 + b1) * 256 + b2) * 256 + b3) :: toWords rest
  | _ => []

def ssig0 (x : Nat) : Nat := rotr 7 x ^^^ rotr 18 x ^^^ (x >>> 3)
def ssig1 (x : Nat) : Nat := rotr 17 x ^^^ rotr 19 x ^^^ (x >>> 10)
def bsig0 (x : Nat) : Nat := rotr 2 x ^^^ rotr 13 x ^^^ rotr 22 x
def bsig1 (x : Nat) : Nat := rotr 6 x ^^^ rotr 11 x ^^^ rotr 25 x

/- Message schedule extension, run 48 times to grow 16 words to 64. -/
def extendW : Nat → List Nat → List Nat
  | 0, w => w
  | k + 1, w =>
      let j := w.length
      extendW k (w ++ [m32 (ssig1 (w.getD (j - 2) 0) + w.getD (j - 7) 0 +
                            ssig0 (w.getD (j - 15) 0) + w.getD (j - 16) 0)])

structure H8 where
  a : Nat
  b : Nat
  c : Nat
  d : Nat
  e : Nat
  f : Nat
  g : Nat
  h : Nat

def chv (e f g : Nat) : Nat := (e &&& f) ^^^ ((4294967295 ^^^ e) &&& g)
def majv (a b c : Nat) : Nat := (a &&& b) ^^^ (a &&& c) ^^^ (b &&& c)

def roundStep (st : H8) (kw : Nat × Nat) : H8 :=
  let t1 := m32 (st.h + bsig1 st.e + chv st.e st.f st.g + kw.1 + kw.2)
  let t2 := m32 (bsig0 st.a + majv st.a st.b st.c)
  ⟨m32 (t1 + t2), st.a, st.b, st.c, m32 (st.d + t1), st.e, st.f, st.g⟩

def compressBlock (hs : List Nat) (block : List Nat) : List Nat :=
  let w := extendW 48 (toWords block)
  let s0 : H8 := ⟨hs.getD 0 0, hs.getD 1 0, hs.getD 2 0, hs.getD 3 0,
                  hs.getD 4 0, hs.getD 5 0, hs.getD 6 0, hs.getD 7 0⟩
  let s := (shaK.zip w).foldl roundStep s0
  [m32 (hs.getD 0 0 + s.a), m32 (hs.getD 1 0 + s.b), m32 (hs.getD 2 0 + s.c),
   m32 (hs.getD 3 0 + s.d), m32 (hs.getD 4 0 + s.e), m32 (hs.getD 5 0 + s.f),
   m32 (hs.getD 6 0 + s.g), m32 (hs.getD 7 0 + s.h)]

/- Split into 64-byte blocks; the fuel (one unit per block, amply covered
   by the byte count) keeps the recursion structural. -/
def chunksGo : Nat → List Nat → List (List Nat)
  | 0, _ => []
  | fuel + 1, l => if l = [] then [] else l.take 64 :: chunksGo fuel (l.drop 64)

def chunks64 (l : List Nat) : List (List Nat) := chunksGo l.length l

def sha256bytes (msg : List Nat) : List Nat :=
  let hs := (chunks64 (sha256pad msg)).foldl compressBlock shaH0
  hs.foldr (fun w acc => bytesBE 4 w ++ acc) []

def hexChar (n : Nat) : Char :=
  if n < 10 then Char.ofNat (48 + n) else Char.ofNat (87 + n)

def hexByte (b : Nat) : List Char := [hexChar (b / 16), hexChar (b % 16)]

def hexStr (bs : List Nat) : String :=
  String.mk (bs.foldr (fun b acc => hexByte b ++ acc) [])

/- PatchStore.compute_checksum: the hash algorithm name and the hex digest
   of sha256 over the base64-encoded content, separated by a colon. -/
def compute_checksum (encoded_content : List Nat) : String :=
  "sha256:" ++ hexStr (sha256bytes encoded_content)

/- A datetime value at whole-second precision, standing for Python
   datetime.datetime. -/
structure Date6 where
  year : Nat
  month : Nat
  day : Nat
  hour : Nat
  minute : Nat
  second : Nat
deriving DecidableEq, Repr

def isLeap (y : Nat) : Bool := y % 4 = 0 && (y % 100 != 0 || y % 400 = 0)

def daysInMonth (y m : Nat) : Nat :=
  if m = 2 then (if isLeap y then 29 else 28)
  else if m = 4 ∨ m = 6 ∨ m = 9 ∨ m = 11 then 30 else 31

/- Civil day number (days since 0000-03-01) for y at least 1; datetime
   comparison and subtraction are chronological, which this realizes. -/
def daysFromCivil (y m d : Nat) : Nat :=
  let y2 := if m ≤ 2 then y - 1 else y
  let era := y2 / 400
  let yoe := y2 % 400
  let mp := if 2 < m then m - 3 else m + 9
  let doy := (153 * mp + 2) / 5 + (d - 1)
  let doe := yoe * 365 + yoe / 4 - yoe / 100 + doy
  era * 146097 + doe

def Date6.toSec (t : Date6) : Nat :=
  daysFromCivil t.year t.month t.day * 86400 + t.hour * 3600 + t.minute * 60 + t.second

def pad2 (n : Nat) : List Char :=
  [Char.ofNat (48 + n / 10 % 10), Char.ofNat (48 + n % 10)]

def pad4 (n : Nat) : List Char :=
  [Char.ofNat (48 + n / 1000 % 10), Char.ofNat (48 + n / 100 % 10),
   Char.ofNat (48 + n / 10 % 10), Char.ofNat (48 + n % 10)]

/- datetime.isoformat with the separator given as a space, at whole-second
   precision: the form YYYY-MM-DD HH:MM:SS that the store persists. -/
def fmt (t : Date6) : String :=
  String.mk (pad4 t.year ++ ['-'] ++ pad2 t.month ++ ['-'] ++ pad2 t.day ++
             [' '] ++ pad2 t.hour ++ [':'] ++ pad2 t.minute ++ [':'] ++ pad2 t.second)

def digit (c : Char) : Option Nat :=
  if 48 ≤ c.toNat ∧ c.toNat ≤ 57 then some (c.toNat - 48) else none

def digits2 : List Char → Option (Nat × List Char)
  | c0 :: c1 :: rest => do
      let d0 ← digit c0
      let d1 ← digit c1
      pure (d0 * 10 + d1, rest)
  | _ => none

def digits4 : List Char → Option (Nat × List Char)
  | c0 :: c1 :: c2 :: c3 :: rest => do
      let d0 ← digit c0
      let d1 ← digit c1
      let d2 ← digit c2
      let d3 ← digit c3
      pure (((d0 * 10 + d1) * 10 + d2) * 10 + d3, rest)
  | _ => none

def expectChar (c : Char) : List Char → Option (List Char)
  | x :: rest => if x = c then some rest else none
  | [] => none

/- datetime.fromisoformat, restricted to the shapes this system produces
   and exchanges: YYYY-MM-DD, optionally followed by one separator
   character (any character, as in CPython) and HH:MM:SS. Fractional
   seconds, partial times and timezone offsets lie outside the modelled
   subset and are rejected here. Field ranges are validated as datetime
   does, including leap years. -/
def parseIso (s : String) : Option Date6 := do
  let cs := s.toList
  let (y, cs) ← digits4 cs
  let cs ← expectChar '-' cs
  let (mo, cs) ← digits2 cs
  let cs ← expectChar '-' cs
  let (d, cs) ← digits2 cs
  let (h, mi, se) ←
    (match cs with
     | [] => some ((0 : Nat), (0 : Nat), (0 : Nat))
     | _ :: cs => do
        let (h, cs) ← digits2 cs
        let cs ← expectChar ':' cs
        let (mi, cs) ← digits2 cs
        let cs ← expectChar ':' cs
        let (se, cs) ← digits2 cs
        if cs = [] then some (h, mi, se) else none)
  if 1 ≤ y ∧ 1 ≤ mo ∧ mo ≤ 12 ∧ 1 ≤ d ∧ d ≤ daysInMonth y mo ∧
     h ≤ 23 ∧ mi ≤ 59 ∧ se ≤ 59 then
    pure ⟨y, mo, d, h, mi, se⟩
  else none

/- The mimetypes extension table, restricted to the two entries that the
   membership test in add can match; every other extension maps to some
   other MIME type or to none, and both fail that test identically, so
   none stands for all of them. -/
def mimeTable : List (List Char × String) :=
  [(".patch".toList, "text/x-patch"), (".diff".toList, "text/x-diff")]

/- Suffix after the last occurrence of sep, the list itself when absent. -/
def afterLastSep (sep : Char) (l : List Char) : List Char :=
  l.foldl (fun acc c => if c = sep then [] else acc ++ [c]) []

/- Extension extraction as in posixpath.splitext: the suffix from the last
   dot of the basename, provided some character of the basename before
   that dot is not itself a dot (so dotfiles have no extension). -/
def extFrom (base : List Char) : List Char :=
  let core := base.dropWhile (fun c => c = '.')
  if core.any (fun c => c = '.') then '.' :: afterLastSep '.' core else []

/- mimetypes.guess_type on a plain filename (no URL scheme handling, which
   never arises for attachment filenames handled here). -/
def guess_type (filename : String) : Option String :=
  let base := afterLastSep '/' filename.toList
  let ext := lowerStr (extFrom base)
  (mimeTable.find? (fun e => e.1 == ext)).map (fun e => e.2)

/- The membership test of add: guess_type(filename)[0] in the pair
   text/x-diff, text/x-patch. -/
def patchMime (filename : String) : Bool :=
  guess_type filename == some "text/x-diff" || guess_type filename == some "text/x-patch"

/- One row of the patches table; content holds the base64-encoded bytes. -/
structure Patch where
  filename : String
  content : List Nat
  checksum : String
  producer : String
  origin : String
  timestamp : String
deriving DecidableEq, Repr

/- Patch.decode_content: reverses the base64 encoding of the stored
   content. -/
def Patch.decode_content (p : Patch) : List Nat := b64decode p.content

/- The distinct logged reasons of the validation cascade in add. -/
inductive AddError
  | missingFilename
  | notPatchFile
  | emptyContent
  | emptyProducer
  | emptyOrigin
  | invalidTimestamp
deriving DecidableEq, Repr

/- Row predicate of the WHERE clause: filename, producer and origin all
   equal the given key. -/
def keyMatches (f p o : String) (r : Patch) : Bool :=
  r.filename == f && r.producer == p && r.origin == o

/- PatchStore.exists: key membership test. -/
def existsRow (s : List Patch) (f p o : String) : Bool := s.any (keyMatches f p o)

/- Timestamp resolution inside add: a supplied timestamp is parsed as
   ISO 8601 and reformatted with a space separator, an absent one defaults
   to the current wall clock time; none encodes the ValueError branch. -/
def tsResolved (t : Option String) (now : Date6) : Option String :=
  match t with
  | some ts => (parseIso ts).map fmt
  | none => some (fmt now)

/- PatchStore.add: the validation cascade in source order, then insert or
   update keyed on (filename, producer, origin). The first component is
   the logged failure reason (none on success, mirroring the True return),
   the second the table contents after the call. -/
def add (s : List Patch) (filename : String) (content : List Nat)
    (producer : String) (origin : String) (timestamp : Option String)
    (now : Date6) : Option AddError × List Patch :=
  if filename = "" then (some .missingFilename, s)
  else if !patchMime filename then (some .notPatchFile, s)
  else if content = [] then (some .emptyContent, s)
  else if producer = "" then (some .emptyProducer, s)
  else if origin = "" then (some .emptyOrigin, s)
  else
    match tsResolved timestamp now with
    | none => (some .invalidTimestamp, s)
    | some ts =>
      let encoded_content := b64encode content
      let checksum := compute_checksum encoded_content
      if existsRow s filename producer origin then
        (none, s.map (fun r =>
          if keyMatches filename producer origin r then
            { r with content := encoded_content, checksum := checksum, timestamp := ts }
          else r))
      else
        (none, s ++ [⟨filename, encoded_content, checksum, producer, origin, ts⟩])

/- SQLite LIKE with its default semantics: a percent sign matches an
   arbitrary run of characters (some suffix of the text matches the rest
   of the pattern), an underscore matches exactly one character, and
   letters compare with ASCII case folded. Recursion is structural on the
   pattern. -/
def likeMatch : List Char → List Char → Bool
  | [], t => t.isEmpty
  | p0 :: ps, t =>
    if p0 = '%' then t.tails.any (fun ts => likeMatch ps ts)
    else
      match t with
      | [] => false
      | c :: ts =>
        if p0 = '_' then likeMatch ps ts
        else (lowerChar p0 == lowerChar c) && likeMatch ps ts

/- PatchStore.search_by_filename: SELECT with filename equality. -/
def search_by_filename (s : List Patch) (f : String) : List Patch :=
  s.filter (fun r => r.filename == f)

/- PatchStore.search_by_producer: SELECT with producer equality. -/
def search_by_producer (s : List Patch) (p : String) : List Patch :=
  s.filter (fun r => r.producer == p)

/- PatchStore.search_by_origin: SELECT with origin LIKE the given string
   followed by a percent sign. -/
def search_by_origin (s : List Patch) (origin : String) : List Patch :=
  s.filter (fun r => likeMatch (origin.toList ++ ['%']) r.origin.toList)

/- PatchStore.search_by_content: SELECT with checksum equality against the
   checksum recomputed from the given raw content. -/
def search_by_content (s : List Patch) (content : List Nat) : List Patch :=
  s.filter (fun r => r.checksum == compute_checksum (b64encode content))

/- One attachment as returned by bug.get_attachments, validated at the
   boundary: last_change is the parsed last_change_time value. -/
structure Attachment where
  is_patch : Bool
  file_name : String
  data : List Nat
  last_change : Date6

/- Outcome of one get_attachments call: the attachment list, an HTTPError
   carrying its args[0] message, or any other raised exception. -/
inductive FetchOutcome
  | success (atts : List Attachment)
  | httpError (msg : String)
  | otherError (msg : String)

/- One bug handle; fetches gives the outcome of each successive
   get_attachments call on this bug. -/
structure Bug where
  weburl : String
  fetches : Nat → FetchOutcome

/- One Store.add invocation made by the crawler, in call order. -/
structure AddCall where
  filename : String
  data : List Nat
  producer : String
  origin : String
  timestamp : String
deriving DecidableEq, Repr

/- State carried through the while loop of crawl. The timestamp field is
   self.timestamp, read by the watermark filter and never written inside
   the loop; queue pairs every remaining bug with its next attempt index. -/
structure LoopState where
  timestamp : Date6
  queue : List (Bug × Nat)
  store : List Patch
  total : Nat
  calls : List AddCall
  log : List String

def msg429 : String := "429 Client Error: Too Many Requests"

/- str.startswith on the args[0] message. -/
def pyStartsWith (s pre : String) : Bool := pre.toList.isPrefixOf s.toList

/- Placeholder clock handed to add by the crawler; add only consults it
   when no timestamp is supplied, and the crawler always supplies one. -/
def dummyNow : Date6 := ⟨1, 1, 1, 0, 0, 0⟩

/- The attachment loop body of crawl for one successfully fetched bug:
   skip non-patches, skip attachments whose last change is at or before
   the watermark, store the rest and count the successful adds. -/
def processAtts (name weburl : String) (atts : List Attachment) (st : LoopState) : LoopState :=
  atts.foldl (fun st a =>
    if !a.is_patch then st
    else if a.last_change.toSec ≤ st.timestamp.toSec then st
    else
      let ts := fmt a.last_change
      let r := add st.store a.file_name a.data name weburl (some ts) dummyNow
      { st with store := r.2,
                total := if r.1 = none then st.total + 1 else st.total,
                calls := st.calls ++ [⟨a.file_name, a.data, name, weburl, ts⟩] }) st

inductive LoopOut
  | drained (st : LoopState)
  | raised (msg : String) (st : LoopState)
  | outOfFuel (st : LoopState)

/- The while loop of crawl, fuel-indexed because the Python loop has no
   bound: a bug whose fetch keeps raising is retried forever, and outOfFuel
   marks runs the fuel cut off. On an HTTPError whose message starts with
   the 429 marker the code logs, sleeps and retries the same bug; on any
   other HTTPError the except clause matches but contains no raise, so the
   loop silently continues with the same bug still at the head. Only an
   exception that is not an HTTPError escapes the try statement. -/
def crawlLoop (name : String) : Nat → LoopState → LoopOut
  | 0, st => if st.queue.isEmpty then .drained st else .outOfFuel st
  | fuel + 1, st =>
    match st.queue with
    | [] => .drained st
    | (bug, k) :: rest =>
      match bug.fetches k with
      | .httpError msg =>
        if pyStartsWith msg msg429 then
          crawlLoop name fuel
            { st with queue := (bug, k + 1) :: rest,
                      log := st.log ++ ["Got an HTTP 429 error, throttling requests."] }
        else
          crawlLoop name fuel { st with queue := (bug, k + 1) :: rest }
      | .otherError msg => .raised msg st
      | .success atts =>
        crawlLoop name fuel (processAtts name bug.weburl atts { st with queue := rest })

/- How a crawl invocation ended, as observable by the caller. -/
inductive CrawlEnd
  | debounced
  | finished (total : Nat)
  | raised (msg : String)
  | outOfFuel
deriving DecidableEq, Repr

/- Observable result of one crawl invocation: the watermark field is
   self.timestamp after the call, query the v1 value of the issued tracker
   query when one was issued at all. -/
structure CrawlResult where
  outcome : CrawlEnd
  watermark : Date6
  store : List Patch
  calls : List AddCall
  log : List String
  query : Option String

/- The loop state on entry of the while loop: every bug queued with
   attempt index zero, nothing yet stored or counted, the two opening log
   lines emitted. -/
def crawlInit (wm : Date6) (bugs : List Bug) (store : List Patch)
    (elapsedDays : Int) : LoopState :=
  { timestamp := wm, queue := bugs.map (fun b => (b, 0)), store := store,
    total := 0, calls := [],
    log := ["Start crawling.",
            "Found " ++ toString bugs.length ++ " bugs with patch attachments " ++
            "that were modified in the last " ++ toString elapsedDays ++ " day(s)."] }

/- BugzillaPatchCrawler.crawl. now is the datetime.now() captured once on
   entry (newts in the source); wm is self.timestamp on entry; bugs is the
   list the tracker query returns; store is the backing table. The elapsed
   timedelta is now minus the watermark in seconds, its days field the
   floor division by 86400. -/
def crawl (fuel : Nat) (now wm : Date6) (name : String) (bugs : List Bug)
    (store : List Patch) : CrawlResult :=
  if ((now.toSec : Int) - (wm.toSec : Int)) < 3600 then
    { outcome := .debounced, watermark := wm, store := store, calls := [],
      log := ["Not an hour has passed since last crawled, not doing anything."],
      query := none }
  else
    match crawlLoop name fuel
        (crawlInit wm bugs store (Int.fdiv ((now.toSec : Int) - (wm.toSec : Int)) 86400)) with
    | .drained st =>
      { outcome := .finished st.total, watermark := now, store := st.store,
        calls := st.calls,
        log := st.log ++ ["Done crawling, added " ++ toString st.total ++ " patches."],
        query := some (toString (Int.fdiv ((now.toSec : Int) - (wm.toSec : Int)) 86400 + 1)) }
    | .raised msg st =>
      { outcome := .raised msg, watermark := wm, store := st.store,
        calls := st.calls, log := st.log, query := some (toString (Int.fdiv ((now.toSec : Int) - (wm.toSec : Int)) 86400 + 1)) }
    | .outOfFuel st =>
      { outcome := .outOfFuel, watermark := wm, store := st.store,
        calls := st.calls, log := st.log, query := some (toString (Int.fdiv ((now.toSec : Int) - (wm.toSec : Int)) 86400 + 1)) }

/- The uniqueness key of a row: (filename, producer, origin). -/
def pkey (r : Patch) : String × String × String := (r.filename, r.producer, r.origin)

/- At most one row per key: all rows carry pairwise distinct keys. -/
def KeyUnique (s : List Patch) : Prop := s.Pairwise (fun a b => pkey a ≠ pkey b)

/- Concrete fixtures for the crawl scenarios. -/
def wmC : Date6 := ⟨2023, 5, 1, 12, 0, 0⟩

def nowC : Date6 := ⟨2023, 5, 2, 12, 0, 0⟩

def dataC : List Nat := [104, 101, 108, 108, 111]

/- Three attachments on one bug: not a patch, a patch changed before the
   watermark, and a patch changed after the watermark. -/
def attsC : List Attachment :=
  [⟨false, "x.bin", [1], ⟨2023, 5, 1, 18, 0, 0⟩⟩,
   ⟨true, "old.patch", [2], ⟨2023, 4, 30, 0, 0, 0⟩⟩,
   ⟨true, "fix.patch", dataC, ⟨2023, 5, 1, 18, 0, 0⟩⟩]

def bugC : Bug := ⟨"https://bz/bug1", fun _ => .success attsC⟩

def msg500 : String := "500 Server Error: Internal Server Error for url: https://bz/rest/bug/1/attachment"

/- A bug whose every get_attachments call raises an HTTPError that is not
   a rate limit. -/
def bug500 : Bug := ⟨"https://bz/bug1", fun _ => .httpError msg500⟩

/- Every base64 digit value maps back to itself through the alphabet. -/
theorem unsextet_sextet : ∀ n, n < 64 → unsextet (sextet n) = n := by decide

/- No base64 digit is the pad byte 61. -/
theorem sextet_ne_pad : ∀ n, n < 64 → ¬ sextet n = 61 := by decide

/- Decoding reverses encoding on every list of byte values. -/
theorem b64decode_b64encode (l : List Nat) (h : ∀ b ∈ l, b < 256) :
    b64decode (b64encode l) = l := by
  induction l using b64encode.induct with
  | case1 b0 b1 b2 rest ih =>
    have h0 : b0 < 256 := h b0 (by simp)
    have h1 : b1 < 256 := h b1 (by simp)
    have h2 : b2 < 256 := h b2 (by simp)
    have ih2 := ih (fun b hb => h b (by simp [hb]))
    simp only [b64encode, b64decode]
    rw [if_neg (sextet_ne_pad _ (by omega)), if_neg (sextet_ne_pad _ (by omega))]
    rw [unsextet_sextet _ (by omega), unsextet_sextet _ (by omega),
        unsextet_sextet _ (by omega), unsextet_sextet _ (by omega), ih2]
    simp only [List.cons.injEq]
    refine ⟨by omega, by omega, by omega, trivial⟩
  | case2 b0 b1 =>
    have h0 : b0 < 256 := h b0 (by simp)
    have h1 : b1 < 256 := h b1 (by simp)
    simp only [b64encode, b64decode]
    rw [if_neg (sextet_ne_pad _ (by omega)), if_pos trivial]
    rw [unsextet_sextet _ (by omega), unsextet_sextet _ (by omega),
        unsextet_sextet _ (by omega)]
    simp only [List.cons.injEq]
    refine ⟨by omega, by omega, trivial⟩
  | case3 b0 =>
    have h0 : b0 < 256 := h b0 (by simp)
    simp only [b64encode, b64decode]
    rw [if_pos trivial]
    rw [unsextet_sextet _ (by omega), unsextet_sextet _ (by omega)]
    simp only [List.cons.injEq]
    refine ⟨by omega, trivial⟩
  | case4 => rfl

/- The first projection of the branch shared by update and insert. -/
theorem fst_if_none {c : Prop} [Decidable c] (x y : List Patch) :
    (if c then ((none : Option AddError), x) else ((none : Option AddError), y)).1 =
      none := by
  split <;> rfl

/- When every validation passes, add succeeds and yields the update table
   when the key exists, the insert table otherwise. -/
theorem add_eq_of_valid {f : String} {c : List Nat} {p o : String}
    (h1 : ¬ f = "") (h2 : ¬ (!patchMime f) = true) (h3 : ¬ c = [])
    (h4 : ¬ p = "") (h5 : ¬ o = "") {t : Option String} {now : Date6} {ts : String}
    (hts : tsResolved t now = some ts) (s : List Patch) :
    add s f c p o t now =
      (if existsRow s f p o then
        ((none : Option AddError),
         s.map (fun r => if keyMatches f p o r then
           { r with content := b64encode c,
                    checksum := compute_checksum (b64encode c), timestamp := ts }
         else r))
       else
        ((none : Option AddError),
         s ++ [⟨f, b64encode c, compute_checksum (b64encode c), p, o, ts⟩])) := by
  unfold add
  rw [if_neg h1, if_neg h2, if_neg h3, if_neg h4, if_neg h5, hts]

/- A successful add passed every validation and resolved a timestamp. -/
theorem add_valid_of_success {s : List Patch} {f : String} {c : List Nat}
    {p o : String} {t : Option String} {now : Date6}
    (hok : (add s f c p o t now).1 = none) :
    ¬ f = "" ∧ ¬ (!patchMime f) = true ∧ ¬ c = [] ∧ ¬ p = "" ∧ ¬ o = "" ∧
      ∃ ts, tsResolved t now = some ts := by
  unfold add at hok
  by_cases h1 : f = ""
  · rw [if_pos h1] at hok; simp at hok
  rw [if_neg h1] at hok
  by_cases h2 : (!patchMime f) = true
  · rw [if_pos h2] at hok; simp at hok
  rw [if_neg h2] at hok
  by_cases h3 : c = []
  · rw [if_pos h3] at hok; simp at hok
  rw [if_neg h3] at hok
  by_cases h4 : p = ""
  · rw [if_pos h4] at hok; simp at hok
  rw [if_neg h4] at hok
  by_cases h5 : o = ""
  · rw [if_pos h5] at hok; simp at hok
  rw [if_neg h5] at hok
  refine ⟨h1, h2, h3, h4, h5, ?_⟩
  cases hr : tsResolved t now with
  | none => rw [hr] at hok; simp at hok
  | some ts => exact ⟨ts, rfl⟩

/- The failure component of add equals the strict validation cascade of
   the source, each branch carrying only its own reason. -/
theorem add_fst_eq (s : List Patch) (f : String) (c : List Nat) (p o : String)
    (t : Option String) (now : Date6) :
    (add s f c p o t now).1 =
      (if f = "" then some AddError.missingFilename
       else if !patchMime f then some AddError.notPatchFile
       else if c = [] then some AddError.emptyContent
       else if p = "" then some AddError.emptyProducer
       else if o = "" then some AddError.emptyOrigin
       else match t with
         | some ts =>
             if parseIso ts = none then some AddError.invalidTimestamp else none
         | none => none) := by
  by_cases h1 : f = ""
  · unfold add; rw [if_pos h1, if_pos h1]
  rw [if_neg h1]
  by_cases h2 : (!patchMime f) = true
  · unfold add; rw [if_neg h1, if_pos h2, if_pos h2]
  rw [if_neg h2]
  by_cases h3 : c = []
  · unfold add; rw [if_neg h1, if_neg h2, if_pos h3, if_pos h3]
  rw [if_neg h3]
  by_cases h4 : p = ""
  · unfold add; rw [if_neg h1, if_neg h2, if_neg h3, if_pos h4, if_pos h4]
  rw [if_neg h4]
  by_cases h5 : o = ""
  · unfold add; rw [if_neg h1, if_neg h2, if_neg h3, if_neg h4, if_pos h5, if_pos h5]
  rw [if_neg h5]
  cases t with
  | none =>
    rw [add_eq_of_valid h1 h2 h3 h4 h5 (rfl : tsResolved none now = some (fmt now)) s,
        fst_if_none]
  | some ts0 =>
    cases hp : parseIso ts0 with
    | none =>
      unfold add
      rw [if_neg h1, if_neg h2, if_neg h3, if_neg h4, if_neg h5]
      have hr : tsResolved (some ts0) now = none := by simp [tsResolved, hp]
      rw [hr]
      show (some AddError.invalidTimestamp, s).1 =
        if parseIso ts0 = none then some AddError.invalidTimestamp else none
      rw [if_pos hp]
    | some d =>
      have hr : tsResolved (some ts0) now = some (fmt d) := by simp [tsResolved, hp]
      rw [add_eq_of_valid h1 h2 h3 h4 h5 hr s, fst_if_none]
      show (none : Option AddError) =
        if parseIso ts0 = none then some AddError.invalidTimestamp else none
      rw [if_neg (by simp [hp])]

/- A failed add leaves the table untouched. -/
theorem add_snd_of_fail {s : List Patch} {f : String} {c : List Nat} {p o : String}
    {t : Option String} {now : Date6} {e : AddError}
    (h : (add s f c p o t now).1 = some e) : (add s f c p o t now).2 = s := by
  unfold add at h ⊢
  by_cases h1 : f = ""
  · rw [if_pos h1]
  rw [if_neg h1] at h ⊢
  by_cases h2 : (!patchMime f) = true
  · rw [if_pos h2]
  rw [if_neg h2] at h ⊢
  by_cases h3 : c = []
  · rw [if_pos h3]
  rw [if_neg h3] at h ⊢
  by_cases h4 : p = ""
  · rw [if_pos h4]
  rw [if_neg h4] at h ⊢
  by_cases h5 : o = ""
  · rw [if_pos h5]
  rw [if_neg h5] at h ⊢
  cases hr : tsResolved t now with
  | none => rfl
  | some ts => rw [hr] at h; dsimp only at h; split at h <;> simp at h

/- A successful add resolved a timestamp. -/
theorem tsResolved_of_success {s : List Patch} {f : String} {c : List Nat}
    {p o : String} {t : Option String} {now : Date6}
    (hok : (add s f c p o t now).1 = none) :
    ∃ ts, tsResolved t now = some ts :=
  (add_valid_of_success hok).2.2.2.2.2

/- The table a successful add leaves behind: an in-place update of the
   matching rows when the key exists, otherwise the appended new row. -/
theorem add_snd_of_success {s : List Patch} {f : String} {c : List Nat}
    {p o : String} {t : Option String} {now : Date6} {ts : String}
    (hts : tsResolved t now = some ts)
    (hok : (add s f c p o t now).1 = none) :
    (add s f c p o t now).2 =
      (if existsRow s f p o then
        s.map (fun r => if keyMatches f p o r then
          { r with content := b64encode c,
                   checksum := compute_checksum (b64encode c), timestamp := ts }
        else r)
       else s ++ [⟨f, b64encode c, compute_checksum (b64encode c), p, o, ts⟩]) := by
  obtain ⟨h1, h2, h3, h4, h5, _⟩ := add_valid_of_success hok
  rw [add_eq_of_valid h1 h2 h3 h4 h5 hts s]
  by_cases hex : existsRow s f p o = true
  · rw [if_pos hex, if_pos hex]
  · rw [if_neg hex, if_neg hex]

theorem keyMatches_iff (f p o : String) (r : Patch) :
    keyMatches f p o r = true ↔ pkey r = (f, p, o) := by
  simp [keyMatches, pkey, Prod.ext_iff, and_assoc]

/- On a table with no matching key, no row matches. -/
theorem existsRow_false_keys {s : List Patch} {f p o : String}
    (hex : ¬ existsRow s f p o = true) :
    ∀ r ∈ s, ¬ keyMatches f p o r = true := by
  intro r hr hk
  exact hex (List.any_eq_true.mpr ⟨r, hr, hk⟩)

/- The in-place update of add preserves the key of every row. -/
theorem pkey_upd (f p o : String) (c : List Nat) (ck ts : String) (r : Patch) :
    pkey (if keyMatches f p o r then
      { r with content := c, checksum := ck, timestamp := ts } else r) = pkey r := by
  split <;> rfl

/- Updating content, checksum and timestamp preserves the key. -/
theorem keyMatches_update (f p o : String) (r : Patch) (c : List Nat)
    (ck ts : String) :
    keyMatches f p o { r with content := c, checksum := ck, timestamp := ts } =
      keyMatches f p o r := rfl

/- In a key-unique table, the rows matching the key of a member that
   matches it are exactly that member. -/
theorem filter_key_of_unique {s : List Patch} (hU : KeyUnique s) {f p o : String}
    {r0 : Patch} (hr : r0 ∈ s) (hk : keyMatches f p o r0 = true) :
    s.filter (keyMatches f p o) = [r0] := by
  induction s with
  | nil => cases hr
  | cons a tl ih =>
    rcases List.pairwise_cons.mp hU with ⟨ha, htl⟩
    rcases List.mem_cons.mp hr with rfl | hmem
    · rw [List.filter_cons_of_pos hk]
      have : tl.filter (keyMatches f p o) = [] := by
        rw [List.filter_eq_nil_iff]
        intro b hb hkb
        exact ha b hb (((keyMatches_iff f p o r0).mp hk).trans
          ((keyMatches_iff f p o b).mp hkb).symm)
      rw [this]
    · have hna : ¬ keyMatches f p o a = true := by
        intro hka
        exact ha r0 hmem (((keyMatches_iff f p o a).mp hka).trans
          ((keyMatches_iff f p o r0).mp hk).symm)
      rw [List.filter_cons_of_neg hna]
      exact ih htl hmem

/- add preserves key uniqueness. -/
theorem add_keyUnique {s : List Patch} (hU : KeyUnique s) (f : String)
    (c : List Nat) (p o : String) (t : Option String) (now : Date6) :
    KeyUnique (add s f c p o t now).2 := by
  cases hok : (add s f c p o t now).1 with
  | some e => rw [add_snd_of_fail hok]; exact hU
  | none =>
    obtain ⟨ts, hts⟩ := tsResolved_of_success hok
    rw [add_snd_of_success hts hok]
    by_cases hex : existsRow s f p o = true
    · rw [if_pos hex]
      refine List.Pairwise.map _ (fun a b hab => ?_) hU
      rw [pkey_upd, pkey_upd]
      exact hab
    · rw [if_neg hex]
      refine List.pairwise_append.mpr
        ⟨hU, List.pairwise_singleton _ _, fun a ha b hb => ?_⟩
      rw [List.mem_singleton] at hb
      subst hb
      intro hcon
      exact existsRow_false_keys hex a ha ((keyMatches_iff f p o a).mpr hcon)

/- add never shrinks the table. -/
theorem add_length_mono (s : List Patch) (f : String) (c : List Nat)
    (p o : String) (t : Option String) (now : Date6) :
    s.length ≤ (add s f c p o t now).2.length := by
  cases hok : (add s f c p o t now).1 with
  | some e => rw [add_snd_of_fail hok]
  | none =>
    obtain ⟨ts, hts⟩ := tsResolved_of_success hok
    rw [add_snd_of_success hts hok]
    split <;> simp

/- Every key present before an add is present after it. -/
theorem add_keys_covered {s : List Patch} (f : String) (c : List Nat)
    (p o : String) (t : Option String) (now : Date6) {r : Patch} (hr : r ∈ s) :
    ∃ r2 ∈ (add s f c p o t now).2, pkey r2 = pkey r := by
  cases hok : (add s f c p o t now).1 with
  | some e => rw [add_snd_of_fail hok]; exact ⟨r, hr, rfl⟩
  | none =>
    obtain ⟨ts, hts⟩ := tsResolved_of_success hok
    rw [add_snd_of_success hts hok]
    split
    · refine ⟨_, List.mem_map_of_mem _ hr, ?_⟩
      split <;> rfl
    · exact ⟨r, List.mem_append_left _ hr, rfl⟩

/- After a successful add into a key-unique table, the rows matching the
   key are exactly one, carrying this calls content, checksum and
   timestamp. -/
theorem add_success_filter {s : List Patch} (hU : KeyUnique s) {f : String}
    {c : List Nat} {p o : String} {t : Option String} {now : Date6} {ts : String}
    (hts : tsResolved t now = some ts)
    (hok : (add s f c p o t now).1 = none) :
    (add s f c p o t now).2.filter (keyMatches f p o) =
      [⟨f, b64encode c, compute_checksum (b64encode c), p, o, ts⟩] := by
  rw [add_snd_of_success hts hok]
  by_cases hex : existsRow s f p o = true
  · rw [if_pos hex]
    obtain ⟨r0, hr0, hk0⟩ :=
      List.any_eq_true.mp (show s.any (keyMatches f p o) = true from hex)
    rw [List.filter_map]
    have hcomp : (keyMatches f p o ∘ fun r => if keyMatches f p o r then
        { r with content := b64encode c,
                 checksum := compute_checksum (b64encode c), timestamp := ts }
      else r) = keyMatches f p o := by
      funext r
      show keyMatches f p o _ = _
      rw [show (fun r => if keyMatches f p o r then
          { r with content := b64encode c,
                   checksum := compute_checksum (b64encode c), timestamp := ts }
        else r) r = if keyMatches f p o r then
          { r with content := b64encode c,
                   checksum := compute_checksum (b64encode c), timestamp := ts }
        else r from rfl]
      by_cases hk : keyMatches f p o r = true
      · rw [if_pos hk, keyMatches_update, hk]
      · rw [if_neg hk]
    rw [hcomp, filter_key_of_unique hU hr0 hk0]
    have hkey := (keyMatches_iff f p o r0).mp hk0
    have hf : r0.filename = f := congrArg Prod.fst hkey
    have hp2 : r0.producer = p := congrArg (fun x => x.2.1) hkey
    have ho : r0.origin = o := congrArg (fun x => x.2.2) hkey
    simp [hk0, hf, hp2, ho]
  · rw [if_neg hex]
    have h1 : s.filter (keyMatches f p o) = [] := by
      rw [List.filter_eq_nil_iff]
      exact existsRow_false_keys hex
    rw [List.filter_append, h1]
    simp [keyMatches]

/-- C1: the store holds at most one row per key (filename, producer,
origin); the first successful add for a key inserts a row and every later
successful add for the same key updates its content, checksum and
timestamp in place, so two successful adds with the same key leave exactly
one row for that key carrying the second calls content, checksum and
timestamp; no add ever removes a row or a key. -/
theorem c1_upsert_single_row (s : List Patch) (f p o : String) (c₁ c₂ : List Nat)
    (t₁ t₂ : Option String) (n₁ n₂ : Date6) (ts₂ : String)
    (hU : KeyUnique s)
    (h1 : (add s f c₁ p o t₁ n₁).1 = none)
    (h2 : (add (add s f c₁ p o t₁ n₁).2 f c₂ p o t₂ n₂).1 = none)
    (hts : tsResolved t₂ n₂ = some ts₂) :
    KeyUnique (add (add s f c₁ p o t₁ n₁).2 f c₂ p o t₂ n₂).2 ∧
    (add (add s f c₁ p o t₁ n₁).2 f c₂ p o t₂ n₂).2.filter (keyMatches f p o) =
      [⟨f, b64encode c₂, compute_checksum (b64encode c₂), p, o, ts₂⟩] ∧
    s.length ≤ (add s f c₁ p o t₁ n₁).2.length ∧
    (add s f c₁ p o t₁ n₁).2.length ≤
      (add (add s f c₁ p o t₁ n₁).2 f c₂ p o t₂ n₂).2.length ∧
    ∀ r ∈ s, ∃ r2 ∈ (add (add s f c₁ p o t₁ n₁).2 f c₂ p o t₂ n₂).2,
      pkey r2 = pkey r := by
  have hU1 : KeyUnique (add s f c₁ p o t₁ n₁).2 := add_keyUnique hU f c₁ p o t₁ n₁
  refine ⟨add_keyUnique hU1 f c₂ p o t₂ n₂, add_success_filter hU1 hts h2,
    add_length_mono s f c₁ p o t₁ n₁, add_length_mono _ f c₂ p o t₂ n₂, ?_⟩
  intro r hr
  obtain ⟨r1, hr1, he1⟩ := add_keys_covered f c₁ p o t₁ n₁ hr
  obtain ⟨r2, hr2, he2⟩ := add_keys_covered f c₂ p o t₂ n₂ hr1
  exact ⟨r2, hr2, he2.trans he1⟩

/-- Witness for C1 at a concrete input: two successful adds with the same
key leave exactly the row of the second call. -/
theorem c1_witness :
    (add [] "a.patch" [104] "p" "o" none dummyNow).1 = none ∧
    (add (add [] "a.patch" [104] "p" "o" none dummyNow).2
        "a.patch" [105] "p" "o" none dummyNow).1 = none ∧
    (add (add [] "a.patch" [104] "p" "o" none dummyNow).2
        "a.patch" [105] "p" "o" none dummyNow).2.filter
        (keyMatches "a.patch" "p" "o") =
      [⟨"a.patch", b64encode [105], compute_checksum (b64encode [105]), "p", "o",
        fmt dummyNow⟩] :=
  ⟨by decide, by decide,
    (c1_upsert_single_row [] "a.patch" "p" "o" [104] [105] none none dummyNow
      dummyNow (fmt dummyNow) List.Pairwise.nil (by decide) (by decide) rfl).2.1⟩

/-- C2: add validates in strict order (filename nonempty, patch or diff
MIME type, content nonempty, producer nonempty, origin nonempty, supplied
timestamp parses), reports only the first failing reason and returns
failure without touching later checks; with an empty filename it fails for
the missing filename, with patch.txt it fails for not being a patch file,
and when every check passes it succeeds. -/
theorem c2_validation_order :
    (∀ s c p o t now, (add s "" c p o t now).1 = some AddError.missingFilename) ∧
    (∀ s c p o t now,
      (add s "patch.txt" c p o t now).1 = some AddError.notPatchFile) ∧
    (∀ s f c p o t now, (add s f c p o t now).1 =
      (if f = "" then some AddError.missingFilename
       else if !patchMime f then some AddError.notPatchFile
       else if c = [] then some AddError.emptyContent
       else if p = "" then some AddError.emptyProducer
       else if o = "" then some AddError.emptyOrigin
       else match t with
         | some ts =>
             if parseIso ts = none then some AddError.invalidTimestamp else none
         | none => none)) := by
  refine ⟨?_, ?_, fun s f c p o t now => add_fst_eq s f c p o t now⟩
  · intro s c p o t now
    rw [add_fst_eq]
    rw [if_pos rfl]
  · intro s c p o t now
    rw [add_fst_eq]
    rw [if_neg (by decide : ¬ ("patch.txt" : String) = "")]
    rw [if_pos (by decide : (!patchMime "patch.txt") = true)]

/-- C10: whenever add fails validation, the store contents are completely
unchanged: no row is inserted, updated or removed. -/
theorem c10_failed_add_frame (s : List Patch) (f : String) (c : List Nat)
    (p o : String) (t : Option String) (now : Date6) (e : AddError)
    (h : (add s f c p o t now).1 = some e) : (add s f c p o t now).2 = s :=
  add_snd_of_fail h

/-- Witness for C10 at a concrete input: a rejected filename leaves the
one-row store as it was. -/
theorem c10_witness :
    (add [⟨"a.patch", [0], "c", "p", "o", "t"⟩] "patch.txt" [104] "p" "o" none
        dummyNow).1 = some AddError.notPatchFile ∧
    (add [⟨"a.patch", [0], "c", "p", "o", "t"⟩] "patch.txt" [104] "p" "o" none
        dummyNow).2 = [⟨"a.patch", [0], "c", "p", "o", "t"⟩] :=
  ⟨by decide,
    c10_failed_add_frame [⟨"a.patch", [0], "c", "p", "o", "t"⟩] "patch.txt" [104]
      "p" "o" none dummyNow AddError.notPatchFile (by decide)⟩

/-- C9: for every raw content stored by a successful add, the stored row
holds the base64 encoding of that content and decode_content returns
exactly the original bytes. -/
theorem c9_decode_content_roundtrip {s : List Patch} {f : String} {c : List Nat}
    {p o : String} {t : Option String} {now : Date6}
    (hB : ∀ b ∈ c, b < 256) (hok : (add s f c p o t now).1 = none) :
    ∃ r ∈ (add s f c p o t now).2,
      r.content = b64encode c ∧ r.decode_content = c := by
  obtain ⟨ts, hts⟩ := tsResolved_of_success hok
  rw [add_snd_of_success hts hok]
  by_cases hex : existsRow s f p o
  · rw [if_pos hex]
    obtain ⟨r0, hr0, hk0⟩ := List.any_eq_true.mp (by simpa [existsRow] using hex)
    refine ⟨_, List.mem_map_of_mem _ hr0, ?_, ?_⟩
    · simp [hk0]
    · simp [Patch.decode_content, hk0, b64decode_b64encode c hB]
  · rw [if_neg hex]
    refine ⟨_, List.mem_append_right _ (List.mem_singleton_self _), rfl, ?_⟩
    simp [Patch.decode_content, b64decode_b64encode c hB]

/-- Witness for C9 at a concrete input. -/
theorem c9_witness :
    (add [] "a.patch" [104, 105] "p" "o" none dummyNow).1 = none ∧
    ∃ r ∈ (add [] "a.patch" [104, 105] "p" "o" none dummyNow).2,
      r.content = b64encode [104, 105] ∧ r.decode_content = [104, 105] :=
  ⟨by decide, c9_decode_content_roundtrip (by decide) (by decide)⟩

set_option maxRecDepth 16384 in
/-- C5: the checksum is a pure function of the raw content computed over
the base64-encoded form; after a successful add into the empty store,
search_by_content of that content returns exactly the stored record, and
search_by_content of different concrete content with a different digest
returns the empty sequence. -/
theorem c5_content_addressing :
    (∀ c₁ c₂ : List Nat, c₁ = c₂ →
      compute_checksum (b64encode c₁) = compute_checksum (b64encode c₂)) ∧
    (∀ f c p o t now, (add [] f c p o t now).1 = none →
      search_by_content (add [] f c p o t now).2 c = (add [] f c p o t now).2 ∧
      (add [] f c p o t now).2.length = 1) ∧
    search_by_content (add [] "a.patch" [104, 105] "p" "o" none dummyNow).2
      [104] = [] := by
  refine ⟨fun c₁ c₂ h => by rw [h], ?_, by decide⟩
  intro f c p o t now hok
  obtain ⟨ts, hts⟩ := tsResolved_of_success hok
  rw [add_snd_of_success hts hok]
  rw [if_neg (by simp [existsRow])]
  constructor
  · simp [search_by_content]
  · rfl

/-- Witness for C5 at a concrete input. -/
theorem c5_witness :
    (add [] "a.patch" [104] "p" "o" none dummyNow).1 = none ∧
    search_by_content (add [] "a.patch" [104] "p" "o" none dummyNow).2 [104] =
      (add [] "a.patch" [104] "p" "o" none dummyNow).2 :=
  ⟨by decide,
    (c5_content_addressing.2.1 "a.patch" [104] "p" "o" none dummyNow (by decide)).1⟩

/- The empty list is a suffix tail of every list. -/
theorem nil_mem_tails (t : List Char) : ([] : List Char) ∈ t.tails := by
  induction t with
  | nil => simp
  | cons c ts ih => rw [List.tails_cons]; exact List.mem_cons_of_mem _ ih

/- A lone percent sign matches every text. -/
theorem likeMatch_percent (t : List Char) : likeMatch ['%'] t = true := by
  have hstep : likeMatch ['%'] t = t.tails.any (fun ts => likeMatch [] ts) := by
    simp [likeMatch]
  rw [hstep]
  exact List.any_eq_true.mpr ⟨[], nil_mem_tails t, rfl⟩

/- For a wildcard-free pattern followed by a percent sign, LIKE is exactly
   the ASCII-case-folded prefix test. -/
theorem likeMatch_append_percent (p : List Char) (t : List Char)
    (hw : ∀ ch ∈ p, ch ≠ '%' ∧ ch ≠ '_') :
    likeMatch (p ++ ['%']) t = (lowerStr p).isPrefixOf (lowerStr t) := by
  induction p generalizing t with
  | nil =>
    rw [List.nil_append, likeMatch_percent]
    simp [lowerStr, List.isPrefixOf]
  | cons p0 ps ih =>
    obtain ⟨hp1, hp2⟩ := hw p0 (List.mem_cons_self p0 ps)
    have hw2 : ∀ ch ∈ ps, ch ≠ '%' ∧ ch ≠ '_' :=
      fun ch hch => hw ch (List.mem_cons_of_mem _ hch)
    cases t with
    | nil =>
      rw [List.cons_append]
      rw [show likeMatch (p0 :: (ps ++ ['%'])) [] = false from by
        simp [likeMatch, hp1]]
      simp [lowerStr, List.isPrefixOf]
    | cons c ts =>
      rw [List.cons_append]
      rw [show likeMatch (p0 :: (ps ++ ['%'])) (c :: ts) =
          ((lowerChar p0 == lowerChar c) && likeMatch (ps ++ ['%']) ts) from by
        simp [likeMatch, hp1, hp2]]
      rw [ih ts hw2]
      simp [lowerStr, List.isPrefixOf]

/-- C4 counterexample: search_by_origin is a SQLite LIKE match, not a pure
prefix match: with one stored row of origin abc, the query a_c returns the
row although a_c is not a prefix of abc, because the underscore in the
interpolated LIKE pattern is a one-character wildcard. -/
theorem c4_like_counterexample :
    ("a_c".toList.isPrefixOf "abc".toList) = false ∧
    (search_by_origin (add [] "a.patch" [97] "p" "abc" none dummyNow).2
        "a_c").map (fun r => r.origin) = ["abc"] :=
  ⟨by decide, by decide⟩

/-- C4 amended: search_by_origin returns exactly the rows whose origin
matches the SQLite LIKE pattern built from the query followed by a percent
sign; in particular, for a query without percent or underscore wildcards
it returns exactly the rows whose origin has the query as a prefix up to
ASCII case folding. -/
theorem c4_origin_like_semantics (P : String) (s : List Patch)
    (hw : ∀ ch ∈ P.toList, ch ≠ '%' ∧ ch ≠ '_') :
    search_by_origin s P =
      s.filter (fun r =>
        (lowerStr P.toList).isPrefixOf (lowerStr r.origin.toList)) := by
  unfold search_by_origin
  exact List.filter_congr
    (fun r _ => likeMatch_append_percent P.toList r.origin.toList hw)

/-- Witness for C4 amended at a concrete input: the spec prefix example. -/
theorem c4_origin_like_witness :
    (∀ ch ∈ "https://x/patches/".toList, ch ≠ '%' ∧ ch ≠ '_') ∧
    search_by_origin [⟨"f.patch", [], "", "p", "https://x/patches/1", ""⟩]
        "https://x/patches/" =
      [⟨"f.patch", [], "", "p", "https://x/patches/1", ""⟩].filter (fun r =>
        (lowerStr "https://x/patches/".toList).isPrefixOf
          (lowerStr r.origin.toList)) :=
  ⟨by decide, c4_origin_like_semantics "https://x/patches/" _ (by decide)⟩

/- The add calls made by the attachment loop are exactly those for patch
   attachments changed strictly after the watermark, in order. -/
theorem processAtts_calls (name weburl : String) (atts : List Attachment)
    (st : LoopState) :
    (processAtts name weburl atts st).calls =
      st.calls ++ (atts.filter (fun a =>
          a.is_patch && !decide (a.last_change.toSec ≤ st.timestamp.toSec))).map
        (fun a => ⟨a.file_name, a.data, name, weburl, fmt a.last_change⟩) := by
  induction atts generalizing st with
  | nil => simp [processAtts]
  | cons a rest ih =>
    by_cases h1 : a.is_patch = true
    · by_cases h2 : a.last_change.toSec ≤ st.timestamp.toSec
      · have hstep : processAtts name weburl (a :: rest) st =
            processAtts name weburl rest st := by
          unfold processAtts
          rw [List.foldl_cons]
          congr 1
          simp [h1, h2]
        rw [hstep, ih st, List.filter_cons_of_neg (by simp [h1, h2])]
      · have hstep : processAtts name weburl (a :: rest) st =
            processAtts name weburl rest
              { st with
                store := (add st.store a.file_name a.data name weburl
                  (some (fmt a.last_change)) dummyNow).2,
                total := if (add st.store a.file_name a.data name weburl
                    (some (fmt a.last_change)) dummyNow).1 = none then
                    st.total + 1 else st.total,
                calls := st.calls ++
                  [⟨a.file_name, a.data, name, weburl, fmt a.last_change⟩] } := by
          unfold processAtts
          rw [List.foldl_cons]
          congr 1
          simp [h1, h2]
        rw [hstep, ih _, List.filter_cons_of_pos (by simp [h1, h2])]
        simp
    · have hstep : processAtts name weburl (a :: rest) st =
          processAtts name weburl rest st := by
        unfold processAtts
        rw [List.foldl_cons]
        congr 1
        simp [h1]
      rw [hstep, ih st, List.filter_cons_of_neg (by simp [h1])]

/-- C6: crawl stores an attachment only if it is marked as a patch and its
last change is strictly after the watermark: the add calls of the
attachment loop are exactly those for such attachments, and on the
concrete bug carrying a non-patch, a patch changed before the watermark
and a patch changed after it, exactly the third is passed to add and
stored, once, the successful add counting toward the total. -/
theorem c6_crawl_filtering :
    (∀ name weburl atts st, (processAtts name weburl atts st).calls =
      st.calls ++ (atts.filter (fun a =>
          a.is_patch && !decide (a.last_change.toSec ≤ st.timestamp.toSec))).map
        (fun a => ⟨a.file_name, a.data, name, weburl, fmt a.last_change⟩)) ∧
    (crawl 9 nowC wmC "Bugzilla patch crawler" [bugC] []).calls =
      [⟨"fix.patch", dataC, "Bugzilla patch crawler", "https://bz/bug1",
        "2023-05-01 18:00:00"⟩] ∧
    (crawl 9 nowC wmC "Bugzilla patch crawler" [bugC] []).outcome =
      CrawlEnd.finished 1 ∧
    (crawl 9 nowC wmC "Bugzilla patch crawler" [bugC] []).store.map
      (fun r => (r.filename, r.producer, r.origin, r.timestamp)) =
      [("fix.patch", "Bugzilla patch crawler", "https://bz/bug1",
        "2023-05-01 18:00:00")] ∧
    (crawl 9 nowC wmC "Bugzilla patch crawler" [bugC] []).store.map
      (fun r => r.content) = [b64encode dataC] :=
  ⟨processAtts_calls, by decide, by decide, by decide, by decide⟩

/-- C7: whenever crawl runs to completion (the queue drains), the
watermark is set to the now timestamp captured once at the very start of
the invocation, not to the completion time. -/
theorem c7_watermark_from_start (fuel : Nat) (now wm : Date6) (name : String)
    (bugs : List Bug) (store : List Patch) (total : Nat)
    (h : (crawl fuel now wm name bugs store).outcome = CrawlEnd.finished total) :
    (crawl fuel now wm name bugs store).watermark = now := by
  unfold crawl at h ⊢
  by_cases he : ((now.toSec : Int) - (wm.toSec : Int)) < 3600
  · rw [if_pos he] at h
    simp at h
  · rw [if_neg he] at h ⊢
    cases hcl : crawlLoop name fuel (crawlInit wm bugs store
        (Int.fdiv ((now.toSec : Int) - (wm.toSec : Int)) 86400)) with
    | drained st => rfl
    | raised msg st => rw [hcl] at h; simp at h
    | outOfFuel st => rw [hcl] at h; simp at h

/-- Witness for C7 at a concrete input: an empty bug list drains at once
and the watermark becomes the start-of-crawl time. -/
theorem c7_watermark_witness :
    (crawl 0 nowC wmC "n" [] []).outcome = CrawlEnd.finished 0 ∧
    (crawl 0 nowC wmC "n" [] []).watermark = nowC :=
  ⟨by decide, c7_watermark_from_start 0 nowC wmC "n" [] [] 0 (by decide)⟩

/-- C8: when less than one hour has elapsed between the watermark and now,
crawl logs the skip reason and returns at once: no tracker query is
issued, nothing is stored, no add call is made and the watermark is
unchanged. -/
theorem c8_debounce (fuel : Nat) (now wm : Date6) (name : String)
    (bugs : List Bug) (store : List Patch)
    (h : ((now.toSec : Int) - (wm.toSec : Int)) < 3600) :
    crawl fuel now wm name bugs store =
      { outcome := CrawlEnd.debounced, watermark := wm, store := store,
        calls := [],
        log := ["Not an hour has passed since last crawled, not doing anything."],
        query := none } := by
  unfold crawl
  rw [if_pos h]

/-- Witness for C8 at a concrete input: the watermark equal to now. -/
theorem c8_debounce_witness :
    ((wmC.toSec : Int) - (wmC.toSec : Int)) < 3600 ∧
    crawl 5 wmC wmC "n" [bugC] [] =
      { outcome := CrawlEnd.debounced, watermark := wmC, store := [],
        calls := [],
        log := ["Not an hour has passed since last crawled, not doing anything."],
        query := none } :=
  ⟨by decide, c8_debounce 5 wmC wmC "n" [bugC] [] (by decide)⟩

/- A queue headed by the bug whose fetches keep raising a non-429
   HTTPError never drains, never raises, and consumes all fuel: the except
   clause matches the error but contains no raise and does not pop the
   bug. -/
theorem crawlLoop_bug500 (name : String) (fuel : Nat) :
    ∀ (k : Nat) (st : LoopState), st.queue = [(bug500, k)] →
      ∃ st2 : LoopState, crawlLoop name fuel st = LoopOut.outOfFuel st2 := by
  induction fuel with
  | zero =>
    intro k st hq
    refine ⟨st, ?_⟩
    unfold crawlLoop
    rw [hq]
    rfl
  | succ n ih =>
    intro k st hq
    have hstep : crawlLoop name (n + 1) st =
        crawlLoop name n { st with queue := [(bug500, k + 1)] } := by
      rw [crawlLoop, hq]
      have hne : pyStartsWith msg500 msg429 = false := by decide
      dsimp only [bug500]
      rw [hne]
      simp
    rw [hstep]
    exact ih (k + 1) _ rfl

/-- C3: contrary to the claim, an attachment-fetch HTTPError other than a
rate limit does not propagate: the except clause catches every HTTPError
and, when the message is not the 429 marker, neither re-raises nor pops
the bug, so the crawler retries the same bug forever (here: exhausts any
amount of fuel without raising and without finishing). Only an exception
that is not an HTTPError propagates and aborts the invocation. -/
theorem c3_fetch_error_handling :
    (∀ fuel, (crawl fuel nowC wmC "Bugzilla patch crawler" [bug500] []).outcome =
      CrawlEnd.outOfFuel) ∧
    (∀ fuel msg, (crawl (fuel + 1) nowC wmC "Bugzilla patch crawler"
        [⟨"https://bz/bug1", fun _ => FetchOutcome.otherError msg⟩] []).outcome =
      CrawlEnd.raised msg) := by
  constructor
  · intro fuel
    unfold crawl
    rw [if_neg (by decide)]
    obtain ⟨st2, hcl⟩ :=
      crawlLoop_bug500 "Bugzilla patch crawler" fuel 0
        (crawlInit wmC [bug500] []
          (Int.fdiv ((nowC.toSec : Int) - (wmC.toSec : Int)) 86400)) rfl
    rw [hcl]
  · intro fuel msg
    unfold crawl
    rw [if_neg (by decide)]
    rfl

end Pase
